import Mathlib

/-!
Verification of the multi-source verification fusion engine
(`orchestrator/fuse.py` and `orchestrator/pp2_client.py`).

Conventions of the embedding:
* Python floats are modelled as exact rationals (`ℚ`);
  `round(x, 4)` is modelled as decimal round-half-to-even on rationals.
* Python result dictionaries are modelled as records of `Option` fields
  (a `none` field models an absent key); the `result.get(key, default)`
  accesses used by the code are modelled by `getD` accessors.
* The async dispatcher is modelled by explicit lists of calls plus a
  behaviour function assigning each call its network outcome.
-/

namespace Ufro

/-- Round-half-to-even of a rational to an integer
(the tie-breaking used by Python's `round`). -/
def roundHalfEven (x : ℚ) : ℤ :=
  let f : ℤ := ⌊x⌋
  let r : ℚ := x - f
  if r < 1/2 then f
  else if 1/2 < r then f + 1
  else if f % 2 = 0 then f else f + 1

/-- Model of Python's `round(x, 4)`. -/
def round4 (x : ℚ) : ℚ := (roundHalfEven (x * 10000) : ℚ) / 10000

/-- Model of `statistics.mean` (the code only applies it to non-empty
lists; on `[]` the model returns 0, matching the
`statistics.mean(scores) if scores else 0.0` guard at its only
possibly-empty use site). -/
def listMean (l : List ℚ) : ℚ := if l = [] then 0 else l.sum / l.length

/-- Model of Python's `min(l)` for non-empty `l` (0 on `[]`, matching the
`min(confidences) if confidences else 0.0` use sites). -/
def listMinD : List ℚ → ℚ
  | [] => 0
  | x :: xs => xs.foldl min x

/-- Model of Python's `max(l)` for non-empty `l` (0 on `[]`). -/
def listMaxD : List ℚ → ℚ
  | [] => 0
  | x :: xs => xs.foldl max x

/-- Python truthiness of an optional string (`None` and `""` are falsy). -/
def pyTruthy : Option String → Bool
  | some s => s ≠ ""
  | none => false

/-- Python's `a or b` on optional strings. -/
def pyOrStr (a b : Option String) : Option String :=
  if pyTruthy a then a else b

/-- `raw_response` sub-dictionary of a verification result
(the keys read by `_extract_candidates`). -/
structure RawResponse where
  name : Option String := none
  person_name : Option String := none
deriving Repr, DecidableEq

/-- A Python result dictionary as produced by `verify_person` /
`verify_all_services` and consumed by `fuse.py`.  A `none` field models an
absent key. -/
structure ResultDict where
  success : Option Bool := none
  verified : Option Bool := none
  confidence : Option ℚ := none
  person_id : Option String := none
  service_name : Option String := none
  service_threshold : Option ℚ := none
  raw_response : Option RawResponse := none
  error : Option String := none
  status_code : Option Nat := none
  no_face_detected : Option Bool := none
deriving Repr, DecidableEq

/-- `result.get("success", False)`. -/
def getSuccess (r : ResultDict) : Bool := r.success.getD false

/-- `result.get("verified", False)`. -/
def getVerified (r : ResultDict) : Bool := r.verified.getD false

/-- `result.get("confidence", 0.0)`. -/
def getConfidence (r : ResultDict) : ℚ := r.confidence.getD 0

/-- `result.get("service_name", "unknown")`. -/
def getServiceName (r : ResultDict) : String := r.service_name.getD "unknown"

/-- The filter at the top of `_extract_candidates`'s loop:
an outcome contributes iff `success` and `verified` are both truthy. -/
def contrib (r : ResultDict) : Bool := getSuccess r && getVerified r

/-- `key = person_id or service_name` (line 51 of fuse.py): the grouping
key is the `person_id` when truthy, else the service name. -/
def pyKey (r : ResultDict) : String :=
  match r.person_id with
  | some p => if p = "" then getServiceName r else p
  | none => getServiceName r

/-- `name = raw_response.get("name") or raw_response.get("person_name")`
(line 48 of fuse.py); `none` when `raw_response` is absent. -/
def rawName (r : ResultDict) : Option String :=
  match r.raw_response with
  | some raw => pyOrStr raw.name raw.person_name
  | none => none

/-- `"name": name or service_name` (line 56 of fuse.py). -/
def candName (r : ResultDict) : String :=
  match rawName r with
  | some s => if s = "" then getServiceName r else s
  | none => getServiceName r

/-- One entry of `candidates_dict` in `_extract_candidates`:
the key plus the accumulated data. -/
structure Group where
  key : String
  person_id : Option String
  name : String
  scores : List ℚ
  services : List String
deriving Repr, DecidableEq

/-- Appending one contribution to `candidates_dict`: if a group with the
key already exists its `scores`/`services` lists are appended to,
otherwise a fresh group (with this outcome's `person_id` and name) is
added at the end — Python dicts preserve insertion order. -/
def insertContribution (key : String) (pid : Option String) (nm : String)
    (conf : ℚ) (svc : String) : List Group → List Group
  | [] => [⟨key, pid, nm, [conf], [svc]⟩]
  | g :: rest =>
    if g.key = key then
      ⟨g.key, g.person_id, g.name, g.scores ++ [conf], g.services ++ [svc]⟩ :: rest
    else
      g :: insertContribution key pid nm conf svc rest

/-- One iteration of the grouping loop of `_extract_candidates`
(lines 36-62 of fuse.py). -/
def groupStep (gs : List Group) (r : ResultDict) : List Group :=
  if contrib r then
    insertContribution (pyKey r) r.person_id (candName r) (getConfidence r)
      (getServiceName r) gs
  else gs

/-- The whole grouping loop of `_extract_candidates`. -/
def buildGroups (results : List ResultDict) : List Group :=
  results.foldl groupStep []

/-- A candidate as built at lines 64-74 of fuse.py. -/
structure Candidate where
  person_id : Option String := none
  name : String := ""
  score : ℚ := 0
  service_count : Nat := 0
  services : List String := []
deriving Repr, DecidableEq

/-- Lines 66-74 of fuse.py: convert one accumulated group to a candidate;
`score` is the arithmetic mean of the accumulated confidences, rounded to
4 decimals. -/
def mkCandidate (g : Group) : Candidate :=
  { person_id := g.person_id
    name := g.name
    score := round4 (listMean g.scores)
    service_count := g.services.length
    services := g.services }

/-- The comparison used by
`candidates.sort(key=lambda x: x["score"], reverse=True)`:
descending by score.  Python's sort is a stable merge sort, modelled by
`List.mergeSort` with this relation. -/
def candLE (a b : Candidate) : Bool := decide (b.score ≤ a.score)

/-- `_extract_candidates` (fuse.py lines 19-79). -/
def extract_candidates (results : List ResultDict) : List Candidate :=
  let groups := buildGroups results
  let candidates := groups.map mkCandidate
  candidates.mergeSort candLE

/-- The tri-state decision. -/
inductive Decision where
  | identified
  | ambiguous
  | unknown
deriving Repr, DecidableEq

/-- `_determine_decision` (fuse.py lines 82-125).  The two arms of the
inner `if len(candidates) > 1` both return `"ambiguous"` and are
collapsed here. -/
def determine_decision (confidence threshold margin : ℚ)
    (candidates : List Candidate) (successful_services : Nat) : Decision :=
  if candidates = [] ∨ successful_services = 0 then .unknown
  else
    let adjusted_threshold := threshold - margin
    if threshold ≤ confidence then .identified
    else if adjusted_threshold ≤ confidence then .ambiguous
    else .unknown

/-- The `identity` sub-dictionary of a fusion result. -/
structure Identity where
  name : String := ""
  person_id : Option String := none
  score : ℚ := 0
deriving Repr, DecidableEq

/-- A fusion result dictionary; `none` models an absent key (e.g. the
empty-input returns carry no `min_confidence`/`verified` keys and only
the δ rule sets `adjusted_threshold`). -/
structure FusionResult where
  decision : Decision
  confidence : ℚ
  adjusted_threshold : Option ℚ := none
  method : String
  identity : Option Identity := none
  candidates : List Candidate := []
  total_services : Nat
  successful_services : Nat
  error : Option String := none
  min_confidence : Option ℚ := none
  max_confidence : Option ℚ := none
  verified : Option Bool := none
deriving Repr, DecidableEq

/-- Lines 181-182 of fuse.py: the τ rule's average confidence over the
successful outcomes. -/
def tauAvgConfidence (successful : List ResultDict) : ℚ :=
  listMean (successful.map getConfidence)

/-- Lines 291-297 of fuse.py: the δ rule's self-weighted confidence over
the successful outcomes (`weights` is the confidence list itself; if the
weights sum to 0 the division is skipped and 0 is returned). -/
def deltaWeightedConfidence (successful : List ResultDict) : ℚ :=
  let all_confidences := successful.map getConfidence
  let weights := all_confidences
  if weights.sum = 0 then 0
  else ((all_confidences.zip weights).map (fun p => p.1 * p.2)).sum / weights.sum

/-- Lines 212-220 / 318-326 of fuse.py: the principal identity is the
best candidate when the decision is `identified`. -/
def pickIdentity (decision : Decision) (candidates : List Candidate) :
    Option Identity :=
  match decision, candidates with
  | .identified, c :: _ => some ⟨c.name, c.person_id, c.score⟩
  | _, _ => none

/-- `apply_tau_rule` (fuse.py lines 128-233). -/
def apply_tau_rule (results : List ResultDict) (threshold : ℚ)
    (margin : ℚ) : FusionResult :=
  if results = [] then
    { decision := .unknown
      confidence := 0
      method := "tau"
      identity := none
      candidates := []
      total_services := 0
      successful_services := 0
      error := some "No hay resultados para fusionar" }
  else
    let successful_results := results.filter (fun r => getSuccess r)
    if successful_results = [] then
      { decision := .unknown
        confidence := 0
        method := "tau"
        identity := none
        candidates := []
        total_services := results.length
        successful_services := 0 }
    else
      let confidences := successful_results.map getConfidence
      let avg_confidence := tauAvgConfidence successful_results
      let verified_results := successful_results.filter (fun r => getVerified r)
      let verified : Bool :=
        if successful_results.length = 1 then
          decide (threshold ≤ avg_confidence)
        else
          let v0 := decide ((verified_results.length : ℚ) >
            (successful_results.length : ℚ) / 2)
          if !v0 && decide (threshold ≤ avg_confidence) then true else v0
      let candidates := extract_candidates verified_results
      let decision := determine_decision avg_confidence threshold margin
        candidates successful_results.length
      { decision := decision
        confidence := round4 avg_confidence
        method := "tau"
        identity := pickIdentity decision candidates
        candidates := candidates
        total_services := results.length
        successful_services := successful_results.length
        min_confidence := some (listMinD confidences)
        max_confidence := some (listMaxD confidences)
        verified := some verified }

/-- `apply_delta_rule` (fuse.py lines 236-342). -/
def apply_delta_rule (results : List ResultDict) (threshold : ℚ)
    (margin : ℚ) : FusionResult :=
  if results = [] then
    { decision := .unknown
      confidence := 0
      method := "delta"
      identity := none
      candidates := []
      total_services := 0
      successful_services := 0
      error := some "No hay resultados para fusionar" }
  else
    let successful_results := results.filter (fun r => getSuccess r)
    if successful_results = [] then
      { decision := .unknown
        confidence := 0
        method := "delta"
        identity := none
        candidates := []
        total_services := results.length
        successful_services := 0 }
    else
      let all_confidences := successful_results.map getConfidence
      let weighted_confidence := deltaWeightedConfidence successful_results
      let verified_results := successful_results.filter (fun r => getVerified r)
      let adjusted_threshold := threshold - margin
      let candidates := extract_candidates verified_results
      let decision := determine_decision weighted_confidence threshold margin
        candidates successful_results.length
      { decision := decision
        confidence := round4 weighted_confidence
        adjusted_threshold := some adjusted_threshold
        method := "delta"
        identity := pickIdentity decision candidates
        candidates := candidates
        total_services := results.length
        successful_services := successful_results.length
        min_confidence := some (listMinD all_confidences)
        max_confidence := some (listMaxD all_confidences)
        verified := some (decide (adjusted_threshold ≤ weighted_confidence)) }

/-- The caller-side selection of the fusion rule
(api/app.py lines 226-229). -/
def select_fusion (method : String) (results : List ResultDict)
    (threshold margin : ℚ) : FusionResult :=
  if method.toLower = "tau" then apply_tau_rule results threshold margin
  else apply_delta_rule results threshold margin

/-! ### Verifier Client and Dispatcher (`orchestrator/pp2_client.py`) -/

/-- The parsed JSON body of a successful PP2 response (the keys read at
lines 168-175 of pp2_client.py). -/
structure PP2Json where
  is_me : Option Bool := none
  score : Option ℚ := none
  confidence : Option ℚ := none
  person_id : Option String := none
  name : Option String := none
  person_name : Option String := none
deriving Repr, DecidableEq

/-- The possible outcomes of the HTTP exchange inside `verify_person`,
abstracting the network: a 2xx response with parsed JSON, a timeout, a
non-2xx status (with the `error` string of its body, when any), or any
other exception. -/
inductive PP2Response where
  | ok (json : PP2Json)
  | timeout
  | httpError (status : Nat) (errorMsg : Option String)
  | exception (msg : String)
deriving Repr, DecidableEq

/-!
Python's string primitives (`lower`, `split`, `in`) are modelled
structurally on the character list of the string, matching their
behaviour on the ASCII data handled here.
-/

/-- Python `s.lower()`. -/
def strLower (s : String) : String := ⟨s.data.map Char.toLower⟩

/-- Python `c in s` for a single character. -/
def strContainsChar (s : String) (c : Char) : Bool := s.data.contains c

/-- Python `s.split(sep)` for a one-character separator, on character
lists: `"" → [""]`, and every occurrence of the separator starts a new
part (adjacent separators give empty parts). -/
def splitOnChar (sep : Char) : List Char → List (List Char)
  | [] => [[]]
  | c :: rest =>
    if c = sep then [] :: splitOnChar sep rest
    else
      match splitOnChar sep rest with
      | h :: t => (c :: h) :: t
      | [] => [[c]]

/-- `pat` is a leading segment of `cs`. -/
def leadsList (pat cs : List Char) : Bool :=
  match pat, cs with
  | [], _ => true
  | _ :: _, [] => false
  | p :: ps, c :: rest => p = c && leadsList ps rest

/-- `pat` occurs contiguously in `cs` (Python `pat in s`). -/
def occursIn (pat cs : List Char) : Bool :=
  match cs with
  | [] => pat.isEmpty
  | _ :: rest => leadsList pat cs || occursIn pat rest

/-- Substring test on strings (Python `pat in s`). -/
def containsSubstr (s pat : String) : Bool := occursIn pat.data s.data

/-- Lines 229-233 of pp2_client.py: detect the "No face detected"
condition in a 400 error body. -/
def noFaceIn (errorMsg : Option String) : Bool :=
  let msg := errorMsg.getD ""
  containsSubstr msg "No face detected" || containsSubstr (strLower msg) "no face"

/-- File-extension extraction of pp2_client.py line 107:
`filename.lower().split('.')[-1] if '.' in filename else ''`. -/
def fileExt (filename : String) : String :=
  if strContainsChar filename '.' then
    ⟨(splitOnChar '.' (strLower filename).data).getLastD []⟩
  else ""

/-- Lines 106-108 of pp2_client.py: `'.' + ext` must be one of
`.jpg`, `.jpeg`, `.png`. -/
def validFileExt (filename : String) : Bool :=
  let dotted := "." ++ fileExt filename
  dotted = ".jpg" || dotted = ".jpeg" || dotted = ".png"

/-- `verify_person` (pp2_client.py lines 79-280), as a pure function of
the filename, the `timeout` argument (`none` = not passed, so the global
`PP2_TIMEOUT` default applies) and the network's response.  Each branch
builds the keys the Python code puts in the returned dictionary
(log-saving side effects and the wall-clock `timestamp` values are
external collaborators and are omitted). -/
def verify_person (filename : String) (timeoutArg : Option ℚ)
    (globalTimeout : ℚ) (resp : PP2Response) : ResultDict :=
  let timeout_value := timeoutArg.getD globalTimeout
  if !validFileExt filename then
    { success := some false
      error := some "Extension de archivo invalida" }
  else
    match resp with
    | .ok j =>
      { success := some true
        verified := some (j.is_me.getD false)
        confidence := some (j.score.getD (j.confidence.getD 0))
        person_id := j.person_id
        raw_response := some ⟨j.name, j.person_name⟩ }
    | .timeout =>
      { success := some false
        error := some ("PP2 service timeout after " ++ toString timeout_value ++ "s") }
    | .httpError status errorMsg =>
      { success := some false
        error := some ("PP2 HTTP error: " ++ toString status)
        status_code := some status
        no_face_detected := some (status = 400 && noFaceIn errorMsg) }
    | .exception m =>
      { success := some false
        error := some ("PP2 error: " ++ m) }

/-- One roster entry (`service_config` dictionary); `none` models an
absent key.  The registry schema carries `name`, `endpoint_verify`,
`threshold` and `enabled`; a `timeout` key may be present in the open
dictionary but is never read by the Dispatcher. -/
structure ServiceConfig where
  name : Option String := none
  endpoint_verify : Option String := none
  threshold : Option ℚ := none
  enabled : Option Bool := none
  timeout : Option ℚ := none
deriving Repr, DecidableEq

/-- `service_config.get("enabled", True)`. -/
def cfgEnabled (c : ServiceConfig) : Bool := c.enabled.getD true

/-- `service_config.get("name", f"pp2_service_{idx}")`. -/
def cfgName (c : ServiceConfig) (idx : Nat) : String :=
  c.name.getD ("pp2_service_" ++ toString idx)

/-- `service_config.get("threshold", 0.75)`. -/
def cfgThreshold (c : ServiceConfig) : ℚ := c.threshold.getD (3/4)

/-- The argument tuple of one `verify_person` invocation created by the
Dispatcher's first loop (pp2_client.py lines 331-339).  `timeoutArg` is
the `timeout` keyword passed to `verify_person`. -/
structure VerifyCall where
  filename : String
  endpoint : Option String
  timeoutArg : Option ℚ
  requestId : String
deriving Repr, DecidableEq

/-- The task-creating loop of `verify_all_services` (pp2_client.py lines
319-339): one `verify_person` call per enabled roster entry, in roster
order, with the entry's endpoint and a per-service request id — and no
`timeout` argument. -/
def dispatchCallsAux (filename base : String) :
    Nat → List ServiceConfig → List VerifyCall
  | _, [] => []
  | idx, cfg :: rest =>
    if cfgEnabled cfg then
      { filename := filename
        endpoint := cfg.endpoint_verify
        timeoutArg := none
        requestId := base ++ "-" ++ cfgName cfg idx }
        :: dispatchCallsAux filename base (idx + 1) rest
    else dispatchCallsAux filename base (idx + 1) rest

/-- The list of `verify_person` calls made by the Dispatcher. -/
def dispatchCalls (filename base : String) (roster : List ServiceConfig) :
    List VerifyCall :=
  dispatchCallsAux filename base 0 roster

/-- What the execution substrate does with one dispatched task: either
the network produces a `PP2Response` (and the task returns
`verify_person`'s result), or the substrate itself raises. -/
inductive TaskOutcome where
  | responds (resp : PP2Response)
  | raises (msg : String)

/-- One element of the list returned by
`asyncio.gather(*tasks, return_exceptions=True)`. -/
inductive GatherItem where
  | value (r : ResultDict)
  | exc (msg : String)

/-- Run one dispatched task (a `verify_person` coroutine) under a given
substrate behaviour. -/
def runTask (globalTimeout : ℚ) (behave : VerifyCall → TaskOutcome)
    (call : VerifyCall) : GatherItem :=
  match behave call with
  | .responds resp =>
    .value (verify_person call.filename call.timeoutArg globalTimeout resp)
  | .raises msg => .exc msg

/-- The result-processing loop of `verify_all_services` (pp2_client.py
lines 344-375): walk the roster again, skip disabled entries, and for
each enabled entry consume the next gathered result (`service_idx`
advances only on enabled entries; the `service_idx < len(results)` guard
is the match on the results list).  Exceptions become failure outcomes
with `verified=False`, `confidence=0`; values get `service_name` and
`service_threshold` added. -/
def processResultsAux : Nat → List ServiceConfig → List GatherItem →
    List ResultDict
  | _, [], _ => []
  | idx, cfg :: rest, results =>
    if cfgEnabled cfg then
      match results with
      | [] => processResultsAux (idx + 1) rest []
      | item :: more =>
        (match item with
         | .exc msg =>
           { success := some false
             error := some msg
             verified := some false
             confidence := some 0
             service_name := some (cfgName cfg idx) }
         | .value r =>
           { r with
             service_name := some (cfgName cfg idx)
             service_threshold := some (cfgThreshold cfg) })
          :: processResultsAux (idx + 1) rest more
    else processResultsAux (idx + 1) rest results

/-- `verify_all_services` (pp2_client.py lines 283-375): empty roster
returns `[]` immediately (before any task is created); otherwise the
dispatched calls are gathered and annotated per enabled entry. -/
def verify_all_services (filename base : String)
    (roster : List ServiceConfig) (globalTimeout : ℚ)
    (behave : VerifyCall → TaskOutcome) : List ResultDict :=
  if roster = [] then []
  else
    let calls := dispatchCalls filename base roster
    let results := calls.map (runTask globalTimeout behave)
    processResultsAux 0 roster results

/-! ### Helper lemmas -/

/-- If no outcome is successful the success filter is empty. -/
theorem filter_success_eq_nil (results : List ResultDict)
    (hall : ∀ r ∈ results, getSuccess r = false) :
    results.filter (fun r => getSuccess r) = [] := by
  rw [List.filter_eq_nil_iff]
  intro r hr
  simp [hall r hr]

/-- Zipping a list with itself and multiplying componentwise squares
each element. -/
theorem zip_self_map_mul (l : List ℚ) :
    ((l.zip l).map fun p => p.1 * p.2) = l.map fun c => c * c := by
  induction l with
  | nil => rfl
  | cons a t ih => simp [ih]

/-! ### C5 — total failure still yields a complete result -/

/-- C5: for every non-empty outcome list in which no outcome succeeded,
both the τ rule and the δ rule return a complete FusionResult with
decision `unknown`, confidence 0 and `successful_services = 0`. -/
theorem tau_delta_total_failure (results : List ResultDict) (t m : ℚ)
    (hne : results ≠ [])
    (hall : ∀ r ∈ results, getSuccess r = false) :
    (apply_tau_rule results t m).decision = Decision.unknown ∧
    (apply_tau_rule results t m).confidence = 0 ∧
    (apply_tau_rule results t m).successful_services = 0 ∧
    (apply_delta_rule results t m).decision = Decision.unknown ∧
    (apply_delta_rule results t m).confidence = 0 ∧
    (apply_delta_rule results t m).successful_services = 0 := by
  have hfil := filter_success_eq_nil results hall
  simp [apply_tau_rule, apply_delta_rule, hne, hfil]

/-- Witness for C5 at a concrete one-element list of failures. -/
theorem tau_delta_total_failure_witness :
    (apply_tau_rule [{ success := some false }] (3/4) (1/10)).decision =
      Decision.unknown ∧
    (apply_tau_rule [{ success := some false }] (3/4) (1/10)).confidence = 0 ∧
    (apply_tau_rule [{ success := some false }] (3/4) (1/10)).successful_services = 0 ∧
    (apply_delta_rule [{ success := some false }] (3/4) (1/10)).decision =
      Decision.unknown ∧
    (apply_delta_rule [{ success := some false }] (3/4) (1/10)).confidence = 0 ∧
    (apply_delta_rule [{ success := some false }] (3/4) (1/10)).successful_services = 0 :=
  tau_delta_total_failure [{ success := some false }] (3/4) (1/10)
    (by decide) (by decide)

/-! ### C6 — empty roster -/

/-- C6: for an empty roster the Dispatcher makes no `verify_person` call
and returns the empty outcome list, and fusing that empty list yields a
value (not a thrown error) with decision `unknown` and
`total_services = 0` under both rules. -/
theorem empty_roster_behavior (filename base : String) (gT : ℚ)
    (behave : VerifyCall → TaskOutcome) (t m : ℚ) :
    dispatchCalls filename base [] = [] ∧
    verify_all_services filename base [] gT behave = [] ∧
    (apply_tau_rule [] t m).decision = Decision.unknown ∧
    (apply_tau_rule [] t m).total_services = 0 ∧
    (apply_delta_rule [] t m).decision = Decision.unknown ∧
    (apply_delta_rule [] t m).total_services = 0 :=
  ⟨rfl, rfl, rfl, rfl, rfl, rfl⟩

/-! ### C8 — fusion is deterministic -/

/-- C8: fusion is a pure function of the outcome list, threshold, margin
and method: two runs on the same inputs produce the same FusionResult
(all fields identical).  The embedding is a total function, so
determinism is definitional. -/
theorem fusion_deterministic (method : String) (results : List ResultDict)
    (t m : ℚ) :
    select_fusion method results t m = select_fusion method results t m := rfl

/-! ### C2 — δ weighted confidence and the division guard -/

/-- C2: with at least one successful outcome, the δ rule's weighted
confidence is `Σ(c·c)/Σ(c)` over the successful confidences, except that
a zero confidence sum short-circuits to 0 (no division by a zero
divisor); the reported confidence is that value rounded to 4 decimals. -/
theorem delta_weighted_division_guard (results : List ResultDict) (t m : ℚ)
    (hne : results.filter (fun r => getSuccess r) ≠ []) :
    (((results.filter (fun r => getSuccess r)).map getConfidence).sum = 0 →
      deltaWeightedConfidence (results.filter (fun r => getSuccess r)) = 0) ∧
    (((results.filter (fun r => getSuccess r)).map getConfidence).sum ≠ 0 →
      deltaWeightedConfidence (results.filter (fun r => getSuccess r)) =
        (((results.filter (fun r => getSuccess r)).map getConfidence).map
          (fun c => c * c)).sum /
        ((results.filter (fun r => getSuccess r)).map getConfidence).sum) ∧
    (apply_delta_rule results t m).confidence =
      round4 (deltaWeightedConfidence (results.filter (fun r => getSuccess r))) := by
  have hres : results ≠ [] := by
    intro h
    rw [h] at hne
    exact hne rfl
  refine ⟨?_, ?_, ?_⟩
  · intro hz
    simp [deltaWeightedConfidence, hz]
  · intro hz
    simp [deltaWeightedConfidence, hz, zip_self_map_mul]
  · simp [apply_delta_rule, hres, hne]

/-- Witness for C2: one successful outcome with zero confidence (the
degenerate everyone-scored-zero case). -/
theorem delta_weighted_division_guard_witness :
    (((([{ success := some true, confidence := some 0 }] : List ResultDict).filter
      (fun r => getSuccess r)).map getConfidence).sum = 0 →
      deltaWeightedConfidence (([{ success := some true, confidence := some 0 }] :
        List ResultDict).filter (fun r => getSuccess r)) = 0) ∧
    (((([{ success := some true, confidence := some 0 }] : List ResultDict).filter
      (fun r => getSuccess r)).map getConfidence).sum ≠ 0 →
      deltaWeightedConfidence (([{ success := some true, confidence := some 0 }] :
        List ResultDict).filter (fun r => getSuccess r)) =
        (((([{ success := some true, confidence := some 0 }] : List ResultDict).filter
          (fun r => getSuccess r)).map getConfidence).map (fun c => c * c)).sum /
        ((([{ success := some true, confidence := some 0 }] : List ResultDict).filter
          (fun r => getSuccess r)).map getConfidence).sum) ∧
    (apply_delta_rule [{ success := some true, confidence := some 0 }] (3/4) (1/10)).confidence =
      round4 (deltaWeightedConfidence (([{ success := some true, confidence := some 0 }] :
        List ResultDict).filter (fun r => getSuccess r))) :=
  delta_weighted_division_guard [{ success := some true, confidence := some 0 }]
    (3/4) (1/10) (by decide)

/-! ### C3 — the τ rule's legacy `verified` flag -/

/-- C3: in the τ rule, with exactly one successful outcome the legacy
`verified` flag is `avg_confidence ≥ threshold`; with two or more
successful outcomes it is true iff the verified count strictly exceeds
half the successful count, or (failing that majority) the average
confidence reaches the threshold. -/
theorem tau_verified_rule (results : List ResultDict) (t m : ℚ) :
    ((results.filter (fun r => getSuccess r)).length = 1 →
      ((apply_tau_rule results t m).verified = some true ↔
        t ≤ tauAvgConfidence (results.filter (fun r => getSuccess r)))) ∧
    (2 ≤ (results.filter (fun r => getSuccess r)).length →
      ((apply_tau_rule results t m).verified = some true ↔
        ((((results.filter (fun r => getSuccess r)).length : ℚ) / 2 <
          (((results.filter (fun r => getSuccess r)).filter
            (fun r => getVerified r)).length : ℚ)) ∨
          t ≤ tauAvgConfidence (results.filter (fun r => getSuccess r))))) := by
  have hres : ∀ n, n ≤ (results.filter (fun r => getSuccess r)).length → 1 ≤ n →
      results ≠ [] := by
    intro n hn h1 h
    subst h
    simp at hn
    omega
  constructor
  · intro hlen
    have h1 : results ≠ [] := hres 1 (by omega) (by omega)
    have h2 : results.filter (fun r => getSuccess r) ≠ [] := by
      intro h; rw [h] at hlen; simp at hlen
    simp [apply_tau_rule, h1, h2, hlen]
  · intro hlen
    have h1 : results ≠ [] := hres 2 hlen (by omega)
    have h2 : results.filter (fun r => getSuccess r) ≠ [] := by
      intro h; rw [h] at hlen; simp at hlen
    have h3 : (results.filter (fun r => getSuccess r)).length ≠ 1 := by omega
    simp only [apply_tau_rule, if_neg h1, if_neg h2, if_neg h3]
    cases hv0 : decide
        ((((results.filter (fun r => getSuccess r)).filter
          (fun r => getVerified r)).length : ℚ) >
          ((results.filter (fun r => getSuccess r)).length : ℚ) / 2) with
    | true =>
      have hgt := of_decide_eq_true hv0
      rw [List.filter_filter] at hgt
      simp [hv0]
      exact Or.inl hgt
    | false =>
      have hle := of_decide_eq_false hv0
      rw [List.filter_filter] at hle
      simp [hv0]
      intro h
      exact absurd h hle

/-- Witness for C3 at one successful outcome of confidence 1 and
threshold 1. -/
theorem tau_verified_rule_witness :
    (apply_tau_rule [{ success := some true, verified := some true, confidence := some 1 }]
      1 (1/10)).verified = some true ↔
    (1 : ℚ) ≤ tauAvgConfidence
      (([{ success := some true, verified := some true, confidence := some 1 }] :
        List ResultDict).filter (fun r => getSuccess r)) :=
  (tau_verified_rule [{ success := some true, verified := some true, confidence := some 1 }]
    1 (1/10)).1 (by decide)

/-! ### C1 — the Decision Classifier -/

/-- The tri-state classification exactly as the claim words it: first the
`unknown` conditions (no successful service, or no candidate, or
confidence below `threshold − margin`), then `identified` at or above the
threshold, else `ambiguous`. -/
def specDecisionC1 (confidence threshold margin : ℚ)
    (candidates : List Candidate) (successful_services : Nat) : Decision :=
  if successful_services = 0 ∨ candidates = [] ∨ confidence < threshold - margin then
    .unknown
  else if threshold ≤ confidence then .identified
  else .ambiguous

/-- C1 counterexample: with a negative margin (`margin = −1`) the code's
classifier answers `identified` (the threshold test is checked first)
while the claim's ordering of the rules answers `unknown` (since
`confidence < threshold − margin`). -/
theorem decision_claim_counterexample :
    determine_decision (1/2) (1/2) (-1) [{}] 1 = Decision.identified ∧
    specDecisionC1 (1/2) (1/2) (-1) [{}] 1 = Decision.unknown := by
  constructor <;> norm_num [determine_decision, specDecisionC1]

/-- For a non-negative margin the code's classifier agrees with the
claim's ordering of the rules. -/
theorem determine_decision_eq_spec (conf t m : ℚ) (cands : List Candidate)
    (n : Nat) (hm : 0 ≤ m) :
    determine_decision conf t m cands n = specDecisionC1 conf t m cands n := by
  by_cases hg : cands = [] ∨ n = 0
  · have hg' : n = 0 ∨ cands = [] ∨ conf < t - m := by tauto
    simp [determine_decision, specDecisionC1, hg, hg']
  · push_neg at hg
    by_cases h2 : t ≤ conf
    · have h4 : ¬conf < t - m := by linarith
      simp [determine_decision, specDecisionC1, hg.1, hg.2, h2, h4]
    · by_cases h3 : t - m ≤ conf
      · have h4 : ¬conf < t - m := by linarith
        simp [determine_decision, specDecisionC1, hg.1, hg.2, h2, h3, h4]
      · have h4 : conf < t - m := by linarith
        simp [determine_decision, specDecisionC1, hg.1, hg.2, h2, h3, h4]

/-- C1 (amended with `0 ≤ margin`): the classifier realises exactly the
claimed tri-state mapping, and the decision emitted by either fusion rule
is that mapping applied to the rule's fused confidence, its candidate
list and its successful-service count. -/
theorem decision_classifier_amended (results : List ResultDict) (conf t m : ℚ)
    (cands : List Candidate) (n : Nat) (hm : 0 ≤ m) :
    determine_decision conf t m cands n = specDecisionC1 conf t m cands n ∧
    (apply_tau_rule results t m).decision =
      specDecisionC1 (tauAvgConfidence (results.filter (fun r => getSuccess r))) t m
        (apply_tau_rule results t m).candidates
        (results.filter (fun r => getSuccess r)).length ∧
    (apply_delta_rule results t m).decision =
      specDecisionC1 (deltaWeightedConfidence (results.filter (fun r => getSuccess r))) t m
        (apply_delta_rule results t m).candidates
        (results.filter (fun r => getSuccess r)).length := by
  refine ⟨determine_decision_eq_spec conf t m cands n hm, ?_, ?_⟩
  · by_cases h1 : results = []
    · subst h1
      simp [apply_tau_rule, specDecisionC1]
    · by_cases h2 : results.filter (fun r => getSuccess r) = []
      · simp [apply_tau_rule, h1, h2, specDecisionC1]
      · simp only [apply_tau_rule, if_neg h1, if_neg h2]
        exact determine_decision_eq_spec _ t m _ _ hm
  · by_cases h1 : results = []
    · subst h1
      simp [apply_delta_rule, specDecisionC1]
    · by_cases h2 : results.filter (fun r => getSuccess r) = []
      · simp [apply_delta_rule, h1, h2, specDecisionC1]
      · simp only [apply_delta_rule, if_neg h1, if_neg h2]
        exact determine_decision_eq_spec _ t m _ _ hm

/-- Witness for the amended C1 at margin `1/10`. -/
theorem decision_classifier_amended_witness :
    determine_decision 1 1 (1/10) [] 0 = specDecisionC1 1 1 (1/10) [] 0 ∧
    (apply_tau_rule [] 1 (1/10)).decision =
      specDecisionC1 (tauAvgConfidence (([] : List ResultDict).filter
        (fun r => getSuccess r))) 1 (1/10)
        (apply_tau_rule [] 1 (1/10)).candidates
        (([] : List ResultDict).filter (fun r => getSuccess r)).length ∧
    (apply_delta_rule [] 1 (1/10)).decision =
      specDecisionC1 (deltaWeightedConfidence (([] : List ResultDict).filter
        (fun r => getSuccess r))) 1 (1/10)
        (apply_delta_rule [] 1 (1/10)).candidates
        (([] : List ResultDict).filter (fun r => getSuccess r)).length :=
  decision_classifier_amended [] 1 1 (1/10) [] 0 (by norm_num)

/-! ### C7 — the failed-outcome invariant -/

/-- Every result built by `verify_person` satisfies the invariant: a
non-success carries no truthy `verified` and no non-zero `confidence`
(under the dictionary-access defaults used by the fusion code). -/
theorem verify_person_inv (filename : String) (ta : Option ℚ) (gT : ℚ)
    (resp : PP2Response) :
    getSuccess (verify_person filename ta gT resp) = false →
      getVerified (verify_person filename ta gT resp) = false ∧
      getConfidence (verify_person filename ta gT resp) = 0 := by
  cases hval : validFileExt filename <;> cases resp <;>
    simp [verify_person, hval, getSuccess, getVerified, getConfidence]

/-- The Dispatcher's result-processing loop preserves the invariant: if
every gathered value satisfies it, so does every processed outcome (the
exception branch establishes it explicitly). -/
theorem processResultsAux_inv (roster : List ServiceConfig) :
    ∀ (idx : Nat) (results : List GatherItem),
    (∀ r, GatherItem.value r ∈ results →
      (getSuccess r = false → getVerified r = false ∧ getConfidence r = 0)) →
    ∀ r ∈ processResultsAux idx roster results,
      getSuccess r = false → getVerified r = false ∧ getConfidence r = 0 := by
  induction roster with
  | nil => intro idx results h r hr; simp [processResultsAux] at hr
  | cons cfg rest ih =>
    intro idx results h r hr
    by_cases he : cfgEnabled cfg
    · cases results with
      | nil =>
        simp only [processResultsAux, if_pos he] at hr
        exact ih (idx + 1) [] (by intro r h'; simp at h') r hr
      | cons item more =>
        simp only [processResultsAux, if_pos he] at hr
        rcases List.mem_cons.mp hr with hhead | htail
        · cases item with
          | exc msg =>
            subst hhead
            simp [getSuccess, getVerified, getConfidence]
          | value v =>
            subst hhead
            intro hs
            have hv := h v (by simp)
            simp only [getSuccess, getVerified, getConfidence] at hs hv ⊢
            exact hv hs
        · exact ih (idx + 1) more
            (fun r' hr' => h r' (List.mem_cons_of_mem _ hr')) r htail
    · simp only [processResultsAux, if_neg he] at hr
      exact ih (idx + 1) results h r hr

/-- C7: every VerificationOutcome produced by the Verifier Client
(`verify_person`, under any network response including invalid file
extensions, timeouts, HTTP errors and other exceptions) or by the
Dispatcher (`verify_all_services`, including substrate exceptions)
satisfies: not succeeded implies not verified and confidence 0. -/
theorem outcome_invariant :
    (∀ (filename : String) (ta : Option ℚ) (gT : ℚ) (resp : PP2Response),
      getSuccess (verify_person filename ta gT resp) = false →
        getVerified (verify_person filename ta gT resp) = false ∧
        getConfidence (verify_person filename ta gT resp) = 0) ∧
    (∀ (filename base : String) (roster : List ServiceConfig) (gT : ℚ)
      (behave : VerifyCall → TaskOutcome),
      ∀ r ∈ verify_all_services filename base roster gT behave,
        getSuccess r = false → getVerified r = false ∧ getConfidence r = 0) := by
  refine ⟨verify_person_inv, ?_⟩
  intro filename base roster gT behave r hr
  by_cases hro : roster = []
  · subst hro
    simp [verify_all_services] at hr
  · simp only [verify_all_services, if_neg hro] at hr
    refine processResultsAux_inv roster 0 _ ?_ r hr
    intro v hv
    rcases List.mem_map.mp hv with ⟨call, hcall, heq⟩
    unfold runTask at heq
    cases hb : behave call with
    | responds resp =>
      rw [hb] at heq
      cases heq
      exact verify_person_inv _ _ _ _
    | raises msg =>
      rw [hb] at heq
      cases heq

/-- The failure outcome the Dispatcher builds for a substrate exception
(used as the concrete witness input). -/
def excOutcome : ResultDict := { success := some false, error := some "boom", verified := some false, confidence := some 0, service_name := some "svc" }

/-- Witness for C7 on a one-service roster whose task raises. -/
theorem outcome_invariant_witness :
    getVerified excOutcome = false ∧ getConfidence excOutcome = 0 :=
  outcome_invariant.2 "a.jpg" "req" [{ name := some "svc", enabled := some true }] 30
    (fun _ => .raises "boom") excOutcome (by decide) (by decide)

/-! ### C9 — dispatcher fan-out and timeouts -/

/-- The enabled roster entries paired with their roster indices,
in roster order (statement helper). -/
def enabledEntriesAux : Nat → List ServiceConfig → List (Nat × ServiceConfig)
  | _, [] => []
  | idx, cfg :: rest =>
    if cfgEnabled cfg then (idx, cfg) :: enabledEntriesAux (idx + 1) rest
    else enabledEntriesAux (idx + 1) rest

/-- Every call the Dispatcher creates passes no `timeout` argument to
`verify_person` (so the global default applies to all of them). -/
theorem dispatchCallsAux_timeouts (filename base : String) (roster : List ServiceConfig) :
    ∀ (idx : Nat), ∀ call ∈ dispatchCallsAux filename base idx roster,
      call.timeoutArg = none := by
  induction roster with
  | nil => intro idx call h; simp [dispatchCallsAux] at h
  | cons cfg rest ih =>
    intro idx call h
    by_cases he : cfgEnabled cfg
    · simp only [dispatchCallsAux, if_pos he] at h
      rcases List.mem_cons.mp h with hh | ht
      · subst hh; rfl
      · exact ih (idx + 1) call ht
    · simp only [dispatchCallsAux, if_neg he] at h
      exact ih (idx + 1) call h

/-- The dispatched calls carry exactly the enabled entries' endpoints,
in roster order. -/
theorem dispatchCallsAux_endpoints (filename base : String) (roster : List ServiceConfig) :
    ∀ (idx : Nat), (dispatchCallsAux filename base idx roster).map VerifyCall.endpoint =
      (roster.filter (fun c => cfgEnabled c)).map ServiceConfig.endpoint_verify := by
  induction roster with
  | nil => intro idx; rfl
  | cons cfg rest ih =>
    intro idx
    by_cases he : cfgEnabled cfg
    · simp only [dispatchCallsAux, if_pos he, List.filter_cons_of_pos he, List.map_cons]
      exact congrArg _ (ih (idx + 1))
    · simp only [dispatchCallsAux, if_neg he, List.filter_cons_of_neg he]
      exact ih (idx + 1)

/-- There are as many dispatched calls as enabled entries. -/
theorem dispatchCallsAux_length_enabled (filename base : String)
    (roster : List ServiceConfig) :
    ∀ (idx jdx : Nat), (dispatchCallsAux filename base idx roster).length =
      (enabledEntriesAux jdx roster).length := by
  induction roster with
  | nil => intro idx jdx; rfl
  | cons cfg rest ih =>
    intro idx jdx
    by_cases he : cfgEnabled cfg
    · simp only [dispatchCallsAux, enabledEntriesAux, if_pos he, List.length_cons]
      exact congrArg _ (ih (idx + 1) (jdx + 1))
    · simp only [dispatchCallsAux, enabledEntriesAux, if_neg he]
      exact ih (idx + 1) (jdx + 1)

/-- The processing loop emits one outcome per enabled entry, in roster
order, tagged with that entry's service name. -/
theorem processResultsAux_names (roster : List ServiceConfig) :
    ∀ (idx : Nat) (results : List GatherItem),
      results.length = (enabledEntriesAux idx roster).length →
      (processResultsAux idx roster results).map ResultDict.service_name =
        (enabledEntriesAux idx roster).map (fun p => some (cfgName p.2 p.1)) := by
  induction roster with
  | nil => intro idx results _; rfl
  | cons cfg rest ih =>
    intro idx results hlen
    by_cases he : cfgEnabled cfg
    · simp only [enabledEntriesAux, if_pos he, List.length_cons] at hlen ⊢
      cases results with
      | nil => simp at hlen
      | cons item more =>
        simp only [List.length_cons] at hlen
        simp only [processResultsAux, if_pos he, List.map_cons]
        cases item with
        | exc msg =>
          simp only [List.cons.injEq]
          exact ⟨trivial, ih (idx + 1) more (by omega)⟩
        | value v =>
          simp only [List.cons.injEq]
          exact ⟨trivial, ih (idx + 1) more (by omega)⟩
    · simp only [enabledEntriesAux, if_neg he] at hlen ⊢
      simp only [processResultsAux, if_neg he]
      exact ih (idx + 1) results hlen

/-- C9 (amended): the Dispatcher creates one `verify_person` call per
enabled roster entry in roster order with that entry's endpoint, passes
no per-entry timeout (every call gets the single global default), and
produces one outcome per enabled entry in roster order tagged with the
entry's service name. -/
theorem dispatcher_roster_order (filename base : String)
    (roster : List ServiceConfig) (gT : ℚ) (behave : VerifyCall → TaskOutcome) :
    (dispatchCalls filename base roster).length =
      (roster.filter (fun c => cfgEnabled c)).length ∧
    (∀ call ∈ dispatchCalls filename base roster, call.timeoutArg = none) ∧
    (dispatchCalls filename base roster).map VerifyCall.endpoint =
      (roster.filter (fun c => cfgEnabled c)).map ServiceConfig.endpoint_verify ∧
    (verify_all_services filename base roster gT behave).map ResultDict.service_name =
      (enabledEntriesAux 0 roster).map (fun p => some (cfgName p.2 p.1)) := by
  refine ⟨?_, dispatchCallsAux_timeouts filename base roster 0,
    dispatchCallsAux_endpoints filename base roster 0, ?_⟩
  · have h := congrArg List.length (dispatchCallsAux_endpoints filename base roster 0)
    simpa using h
  · by_cases hro : roster = []
    · subst hro; rfl
    · simp only [verify_all_services, if_neg hro]
      refine processResultsAux_names roster 0 _ ?_
      rw [List.length_map]
      exact dispatchCallsAux_length_enabled filename base roster 0 0

/-- A one-entry roster whose configuration carries a per-service
`timeout` value (counterexample input). -/
def rosterTC : List ServiceConfig := [{ name := some "svc", endpoint_verify := some "e", enabled := some true, timeout := some 5 }]

/-- C9 counterexample: the entry's configured timeout is 5, yet the call
the Dispatcher creates for it passes no timeout at all (`none`, so the
global `PP2_TIMEOUT` default applies) — the claimed per-entry timeout is
not used. -/
theorem dispatcher_timeout_counterexample :
    (dispatchCalls "a.jpg" "req" rosterTC).map VerifyCall.timeoutArg = [none] ∧
    rosterTC.map ServiceConfig.timeout ≠
      (dispatchCalls "a.jpg" "req" rosterTC).map VerifyCall.timeoutArg := by
  constructor <;> decide

/-- Witness for the amended C9 on a concrete one-entry roster. -/
theorem dispatcher_roster_order_witness :
    VerifyCall.timeoutArg ⟨"a.jpg", some "e", none, "req-svc"⟩ = none :=
  (dispatcher_roster_order "a.jpg" "req"
    [{ name := some "svc", endpoint_verify := some "e", enabled := some true }] 30
    (fun _ => .raises "x")).2.1
    ⟨"a.jpg", some "e", none, "req-svc"⟩ (by decide)

/-! ### C10 — the δ weighting dominates the τ average -/

/-- AM-GM step: `2·a·Σc ≤ n·a² + Σc²`. -/
theorem two_mul_sum_le (a : ℚ) (l : List ℚ) :
    2 * a * l.sum ≤ l.length * (a * a) + (l.map fun c => c * c).sum := by
  induction l with
  | nil => simp
  | cons b t ih =>
    simp only [List.sum_cons, List.map_cons, List.length_cons]
    push_cast
    nlinarith [sq_nonneg (a - b), ih]

/-- Cauchy-Schwarz for lists: `(Σc)² ≤ n · Σc²`. -/
theorem sq_sum_le_length_mul_sum_sq (l : List ℚ) :
    l.sum * l.sum ≤ l.length * (l.map fun c => c * c).sum := by
  induction l with
  | nil => simp
  | cons a t ih =>
    simp only [List.sum_cons, List.map_cons, List.length_cons]
    push_cast
    nlinarith [two_mul_sum_le a t, ih]

/-- A list of non-negative rationals with a positive member has a
positive sum. -/
theorem sum_pos_of_nonneg_of_mem_pos (l : List ℚ)
    (hnn : ∀ c ∈ l, 0 ≤ c) (hx : ∃ c ∈ l, 0 < c) : 0 < l.sum := by
  induction l with
  | nil => simp at hx
  | cons a t ih =>
    rcases hx with ⟨c, hc, hcpos⟩
    rcases List.mem_cons.mp hc with rfl | hct
    · have := List.sum_nonneg (fun x hx => hnn x (List.mem_cons_of_mem _ hx))
      simp only [List.sum_cons]
      linarith
    · have ht := ih (fun x hx => hnn x (List.mem_cons_of_mem _ hx)) ⟨c, hct, hcpos⟩
      have ha := hnn a (List.mem_cons_self _ _)
      simp only [List.sum_cons]
      linarith

/-- C10: when the successful outcomes' confidences are all non-negative
with at least one positive, the δ rule's unrounded self-weighted
confidence `Σ(c·c)/Σ(c)` is at least the τ rule's unrounded average
`Σ(c)/n` over the same outcomes. -/
theorem delta_dominates_tau (results : List ResultDict)
    (hnn : ∀ r ∈ results.filter (fun r => getSuccess r), 0 ≤ getConfidence r)
    (hpos : ∃ r ∈ results.filter (fun r => getSuccess r), 0 < getConfidence r) :
    tauAvgConfidence (results.filter (fun r => getSuccess r)) ≤
      deltaWeightedConfidence (results.filter (fun r => getSuccess r)) := by
  set cs := (results.filter (fun r => getSuccess r)).map getConfidence with hcs
  have hnn' : ∀ c ∈ cs, 0 ≤ c := by
    intro c hc
    rcases List.mem_map.mp hc with ⟨r, hr, rfl⟩
    exact hnn r hr
  have hpos' : ∃ c ∈ cs, 0 < c := by
    rcases hpos with ⟨r, hr, hrpos⟩
    exact ⟨getConfidence r, List.mem_map_of_mem _ hr, hrpos⟩
  have hsum : 0 < cs.sum := sum_pos_of_nonneg_of_mem_pos cs hnn' hpos'
  have hne : cs ≠ [] := by
    rcases hpos' with ⟨c, hc, _⟩
    exact List.ne_nil_of_mem hc
  have hlen : 0 < (cs.length : ℚ) := by
    have := List.length_pos.mpr hne
    exact_mod_cast this
  rw [tauAvgConfidence, deltaWeightedConfidence, listMean]
  rw [if_neg hne, if_neg (ne_of_gt hsum), zip_self_map_mul]
  rw [div_le_div_iff₀ hlen hsum]
  calc cs.sum * cs.sum ≤ cs.length * (cs.map fun c => c * c).sum :=
        sq_sum_le_length_mul_sum_sq cs
    _ = (cs.map fun c => c * c).sum * cs.length := by ring

/-- Witness for C10 at one successful outcome of confidence 1. -/
theorem delta_dominates_tau_witness :
    tauAvgConfidence (([{ success := some true, confidence := some 1 }] :
      List ResultDict).filter (fun r => getSuccess r)) ≤
    deltaWeightedConfidence (([{ success := some true, confidence := some 1 }] :
      List ResultDict).filter (fun r => getSuccess r)) :=
  delta_dominates_tau [{ success := some true, confidence := some 1 }]
    (by decide) (by decide)

/-! ### C4 — candidate extraction -/

/-- The first occurrence of each element, in encounter order (the order in
which Python dict keys are created). -/
def firstKeys (l : List String) : List String := l.reverse.dedup.reverse

/-- Membership is preserved by first-occurrence deduplication. -/
theorem mem_firstKeys (a : String) (l : List String) : a ∈ firstKeys l ↔ a ∈ l := by
  simp [firstKeys]

/-- First-occurrence deduplication yields no duplicates. -/
theorem nodup_firstKeys (l : List String) : (firstKeys l).Nodup :=
  List.nodup_reverse.mpr (List.nodup_dedup l.reverse)

/-- Appending an already-seen element does not change the key order. -/
theorem firstKeys_append_mem (l : List String) (k : String) (h : k ∈ l) :
    firstKeys (l ++ [k]) = firstKeys l := by
  unfold firstKeys
  rw [List.reverse_append]
  simp only [List.reverse_singleton, List.singleton_append]
  rw [List.dedup_cons_of_mem (by simpa using h)]

/-- Appending a fresh element appends it to the key order. -/
theorem firstKeys_append_not_mem (l : List String) (k : String) (h : k ∉ l) :
    firstKeys (l ++ [k]) = firstKeys l ++ [k] := by
  unfold firstKeys
  rw [List.reverse_append]
  simp only [List.reverse_singleton, List.singleton_append]
  rw [List.dedup_cons_of_not_mem (by simpa using h), List.reverse_cons]

/-- Inserting a contribution under an existing key keeps the key list. -/
theorem insertContribution_keys_of_mem (k : String) (pid : Option String)
    (nm : String) (conf : ℚ) (svc : String) (gs : List Group)
    (hmem : k ∈ gs.map Group.key) :
    (insertContribution k pid nm conf svc gs).map Group.key = gs.map Group.key := by
  induction gs with
  | nil => simp at hmem
  | cons g rest ih =>
    by_cases hk : g.key = k
    · simp [insertContribution, hk]
    · simp only [List.map_cons, List.mem_cons] at hmem
      rcases hmem with h | h
      · exact absurd h.symm hk
      · simp [insertContribution, hk, ih h]

/-- Inserting a contribution under a fresh key appends a new group. -/
theorem insertContribution_of_not_mem (k : String) (pid : Option String)
    (nm : String) (conf : ℚ) (svc : String) (gs : List Group)
    (hmem : k ∉ gs.map Group.key) :
    insertContribution k pid nm conf svc gs =
      gs ++ [⟨k, pid, nm, [conf], [svc]⟩] := by
  induction gs with
  | nil => rfl
  | cons g rest ih =>
    simp only [List.map_cons, List.mem_cons, not_or] at hmem
    have hk : g.key ≠ k := fun h => hmem.1 h.symm
    simp [insertContribution, hk, ih hmem.2]

/-- With duplicate-free keys, every group after an insertion under an
existing key is either an untouched group with a different key or the
matching group with the contribution appended. -/
theorem insertContribution_mem_cases (k : String) (pid : Option String)
    (nm : String) (conf : ℚ) (svc : String) (gs : List Group)
    (hnd : (gs.map Group.key).Nodup) (hmem : k ∈ gs.map Group.key) :
    ∀ g' ∈ insertContribution k pid nm conf svc gs,
      (g' ∈ gs ∧ g'.key ≠ k) ∨
      (∃ g ∈ gs, g.key = k ∧
        g' = ⟨g.key, g.person_id, g.name, g.scores ++ [conf], g.services ++ [svc]⟩) := by
  induction gs with
  | nil => simp at hmem
  | cons g rest ih =>
    intro g' h
    by_cases hk : g.key = k
    · simp only [insertContribution, if_pos hk, List.mem_cons] at h
      rcases h with rfl | h
      · exact Or.inr ⟨g, List.mem_cons_self _ _, hk, rfl⟩
      · left
        refine ⟨List.mem_cons_of_mem _ h, ?_⟩
        intro hgk
        have hkeys : g'.key ∈ rest.map Group.key := List.mem_map_of_mem _ h
        rw [hgk, ← hk] at hkeys
        simp only [List.map_cons, List.nodup_cons] at hnd
        exact hnd.1 hkeys
    · simp only [insertContribution, if_neg hk, List.mem_cons] at h
      rcases h with rfl | h
      · exact Or.inl ⟨List.mem_cons_self _ _, fun hc => hk hc⟩
      · simp only [List.map_cons, List.nodup_cons] at hnd
        have hmem' : k ∈ rest.map Group.key := by
          simp only [List.map_cons, List.mem_cons] at hmem
          rcases hmem with h' | h'
          · exact absurd h'.symm hk
          · exact h'
        rcases ih hnd.2 hmem' g' h with ⟨hg, hne⟩ | ⟨g₀, hg₀, hkey, heq⟩
        · exact Or.inl ⟨List.mem_cons_of_mem _ hg, hne⟩
        · exact Or.inr ⟨g₀, List.mem_cons_of_mem _ hg₀, hkey, heq⟩



/-- The outcomes of `l` contributing (successful and verified) under
grouping key `k` (statement helper). -/
def keyContributions (l : List ResultDict) (k : String) : List ResultDict :=
  l.filter (fun r => contrib r && decide (pyKey r = k))

/-- What the grouping loop of `_extract_candidates` computes: each
group's scores and services are exactly the confidences and service
names of the contributions with its key, in list order, and the keys are
the contributing outcomes' keys in first-encounter order. -/
def GroupsSpec (l : List ResultDict) (gs : List Group) : Prop :=
  (∀ g ∈ gs, g.scores = (keyContributions l g.key).map getConfidence ∧
    g.services = (keyContributions l g.key).map getServiceName) ∧
  gs.map Group.key = firstKeys ((l.filter (fun r => contrib r)).map pyKey)

/-- One loop iteration preserves the grouping specification. -/
theorem groupStep_spec (pref : List ResultDict) (gs : List Group) (r : ResultDict)
    (h : GroupsSpec pref gs) : GroupsSpec (pref ++ [r]) (groupStep gs r) := by
  obtain ⟨helem, hkeys⟩ := h
  by_cases hc : contrib r = true
  · have hkc : ∀ k, keyContributions (pref ++ [r]) k =
        keyContributions pref k ++ (if pyKey r = k then [r] else []) := by
      intro k
      unfold keyContributions
      rw [List.filter_append]
      congr 1
      by_cases hpk : pyKey r = k
      · simp [hc, hpk]
      · simp [hc, hpk]
    have hfc : (pref ++ [r]).filter (fun r => contrib r) =
        pref.filter (fun r => contrib r) ++ [r] := by
      rw [List.filter_append]
      simp [hc]
    unfold groupStep
    rw [if_pos hc]
    by_cases hmem : pyKey r ∈ gs.map Group.key
    · have hnd : (gs.map Group.key).Nodup := by
        rw [hkeys]; exact nodup_firstKeys _
      constructor
      · intro g' hg'
        rcases insertContribution_mem_cases (pyKey r) r.person_id (candName r)
            (getConfidence r) (getServiceName r) gs hnd hmem g' hg' with
          ⟨hg, hne⟩ | ⟨g, hgmem, hkey, heq⟩
        · rw [hkc g'.key, if_neg (fun hh => hne hh.symm), List.append_nil]
          exact helem g' hg
        · subst heq
          simp only
          rw [hkc, hkey, if_pos rfl, List.map_append, List.map_append]
          have := helem g hgmem
          rw [hkey] at this
          exact ⟨by simp [this.1], by simp [this.2]⟩
      · rw [insertContribution_keys_of_mem _ _ _ _ _ _ hmem, hfc, List.map_append]
        simp only [List.map_cons, List.map_nil]
        rw [firstKeys_append_mem]
        · exact hkeys
        · have : pyKey r ∈ firstKeys ((pref.filter (fun r => contrib r)).map pyKey) := by
            rw [← hkeys]; exact hmem
          exact (mem_firstKeys _ _).mp this
    · have hknotin : pyKey r ∉ (pref.filter (fun r => contrib r)).map pyKey := by
        intro hin
        exact hmem (hkeys ▸ (mem_firstKeys _ _).mpr hin)
      have hkcnil : keyContributions pref (pyKey r) = [] := by
        rw [keyContributions, List.filter_eq_nil_iff]
        intro x hx hpred
        simp only [Bool.and_eq_true, decide_eq_true_eq] at hpred
        exact hknotin (hpred.2 ▸ List.mem_map_of_mem pyKey
          (List.mem_filter.mpr ⟨hx, hpred.1⟩))
      rw [insertContribution_of_not_mem _ _ _ _ _ _ hmem]
      constructor
      · intro g' hg'
        rcases List.mem_append.mp hg' with hg | hg
        · have hne : g'.key ≠ pyKey r := by
            intro hh
            exact hmem (hh ▸ List.mem_map_of_mem _ hg)
          rw [hkc g'.key, if_neg (fun hh => hne hh.symm), List.append_nil]
          exact helem g' hg
        · rcases List.mem_singleton.mp hg with rfl
          simp only
          rw [hkc, if_pos rfl, hkcnil, List.nil_append]
          exact ⟨rfl, rfl⟩
      · rw [List.map_append, hfc, List.map_append]
        simp only [List.map_cons, List.map_nil]
        rw [firstKeys_append_not_mem _ _ hknotin, hkeys]
  · have hkc : ∀ k, keyContributions (pref ++ [r]) k = keyContributions pref k := by
      intro k
      unfold keyContributions
      rw [List.filter_append]
      simp [hc]
    have hfc : (pref ++ [r]).filter (fun r => contrib r) =
        pref.filter (fun r => contrib r) := by
      rw [List.filter_append]
      simp [hc]
    unfold groupStep
    rw [if_neg hc]
    exact ⟨fun g hg => by rw [hkc]; exact helem g hg, by rw [hfc]; exact hkeys⟩



/-- The grouping fold preserves the specification from any prefix. -/
theorem buildGroups_spec_aux (l : List ResultDict) :
    ∀ (pref : List ResultDict) (gs : List Group),
      GroupsSpec pref gs → GroupsSpec (pref ++ l) (l.foldl groupStep gs) := by
  induction l with
  | nil => intro pref gs h; simpa using h
  | cons a t ih =>
    intro pref gs h
    rw [List.foldl_cons, show pref ++ a :: t = (pref ++ [a]) ++ t by simp]
    exact ih (pref ++ [a]) _ (groupStep_spec pref gs a h)

/-- The grouping loop satisfies its specification. -/
theorem buildGroups_spec (l : List ResultDict) : GroupsSpec l (buildGroups l) := by
  have h0 : GroupsSpec [] [] := ⟨by simp, by simp [firstKeys]⟩
  have := buildGroups_spec_aux l [] [] h0
  simpa [buildGroups] using this

/-- Non-contributing outcomes are skipped: grouping the contributing
sublist gives the same groups. -/
theorem buildGroups_filter (l : List ResultDict) :
    buildGroups (l.filter (fun r => contrib r)) = buildGroups l := by
  have aux : ∀ (l : List ResultDict) (gs : List Group),
      (l.filter (fun r => contrib r)).foldl groupStep gs = l.foldl groupStep gs := by
    intro l
    induction l with
    | nil => intro gs; rfl
    | cons a t ih =>
      intro gs
      by_cases hc : contrib a = true
      · rw [List.filter_cons_of_pos hc, List.foldl_cons, List.foldl_cons]
        exact ih _
      · rw [List.filter_cons_of_neg (by simpa using hc), List.foldl_cons]
        rw [show groupStep gs a = gs from if_neg hc]
        exact ih gs
  exact aux l []

/-- The descending-score comparison is transitive. -/
theorem candLE_trans (a b c : Candidate) :
    candLE a b → candLE b c → candLE a c := by
  simp only [candLE, decide_eq_true_eq]
  intro h1 h2
  linarith

/-- The descending-score comparison is total. -/
theorem candLE_total (a b : Candidate) : candLE a b || candLE b a := by
  simp only [candLE, Bool.or_eq_true, decide_eq_true_eq]
  exact le_total b.score a.score



/-- Stability of the sort: the candidates of any fixed score appear in
the sorted output exactly in their pre-sort order. -/
theorem mergeSort_filter_score (pre : List Candidate) (s : ℚ) :
    (pre.mergeSort candLE).filter (fun c => decide (c.score = s)) =
      pre.filter (fun c => decide (c.score = s)) := by
  have hall : ∀ c ∈ pre.filter (fun c => decide (c.score = s)), c.score = s := by
    intro c hc
    have := List.of_mem_filter hc
    simpa using this
  have hpw : (pre.filter (fun c => decide (c.score = s))).Pairwise
      (fun a b => candLE a b = true) := by
    refine List.pairwise_of_forall_mem_list ?_
    intro a ha b hb
    simp only [candLE, decide_eq_true_eq]
    rw [hall a ha, hall b hb]
  have hsub : List.Sublist (pre.filter (fun c => decide (c.score = s)))
      (pre.mergeSort candLE) :=
    List.sublist_mergeSort (fun a b c => candLE_trans a b c) candLE_total hpw
      (List.filter_sublist pre)
  have hsub2 : List.Sublist (pre.filter (fun c => decide (c.score = s)))
      ((pre.mergeSort candLE).filter (fun c => decide (c.score = s))) := by
    have h2 := hsub.filter (fun c => decide (c.score = s))
    rwa [List.filter_filter, show (fun (a : Candidate) =>
      decide (a.score = s) && decide (a.score = s)) = fun a => decide (a.score = s) by
        funext a; exact Bool.and_self _] at h2
  have hlen : ((pre.mergeSort candLE).filter (fun c => decide (c.score = s))).length =
      (pre.filter (fun c => decide (c.score = s))).length :=
    ((List.mergeSort_perm pre candLE).filter _).length_eq
  exact (hsub2.eq_of_length hlen.symm).symm



/-- C4: candidate extraction uses only succeeded-and-verified outcomes;
every emitted candidate's score is the unweighted mean of its group's
contributing confidences rounded to 4 decimals and its services are that
group's contributors; groups are keyed by truthy `person_id` else
service name, in first-contribution order; and the output is sorted by
score descending with equal-score candidates kept in first-contribution
order (stable sort over the first-encounter-ordered group list). -/
theorem candidate_extraction (l : List ResultDict) :
    extract_candidates l = extract_candidates (l.filter (fun r => contrib r)) ∧
    (∀ c ∈ extract_candidates l, ∃ k : String,
      c.score = round4 (listMean ((keyContributions l k).map getConfidence)) ∧
      c.services = (keyContributions l k).map getServiceName) ∧
    (buildGroups l).map Group.key =
      firstKeys ((l.filter (fun r => contrib r)).map pyKey) ∧
    List.Pairwise (fun a b => b.score ≤ a.score) (extract_candidates l) ∧
    (∀ s : ℚ, (extract_candidates l).filter (fun c => decide (c.score = s)) =
      ((buildGroups l).map mkCandidate).filter (fun c => decide (c.score = s))) := by
  refine ⟨?_, ?_, (buildGroups_spec l).2, ?_, ?_⟩
  · unfold extract_candidates
    rw [buildGroups_filter]
  · intro c hc
    unfold extract_candidates at hc
    rw [List.mem_mergeSort] at hc
    rcases List.mem_map.mp hc with ⟨g, hg, rfl⟩
    have hspec := (buildGroups_spec l).1 g hg
    exact ⟨g.key, by simp [mkCandidate, hspec.1], by simp [mkCandidate, hspec.2]⟩
  · have h := List.sorted_mergeSort (fun a b c => candLE_trans a b c)
      candLE_total ((buildGroups l).map mkCandidate)
    unfold extract_candidates
    refine h.imp ?_
    intro a b hab
    simpa [candLE] using hab
  · intro s
    exact mergeSort_filter_score ((buildGroups l).map mkCandidate) s



/-- A concrete verified outcome (witness input). -/
def resA : ResultDict := { success := some true, verified := some true, confidence := some 1, person_id := some "P", service_name := some "svc1" }
/-- The candidate extracted from `resA` (witness value). -/
def candA : Candidate := { person_id := some "P", name := "svc1", score := 1, service_count := 1, services := ["svc1"] }

/-- Witness for C4 at a one-outcome list. -/
theorem candidate_extraction_witness :
    ∃ k : String, candA.score = round4 (listMean ((keyContributions [resA] k).map getConfidence)) ∧
      candA.services = (keyContributions [resA] k).map getServiceName :=
  (candidate_extraction [resA]).2.1 candA (by
    have hs : round4 (listMean [1]) = 1 := by norm_num [round4, roundHalfEven, listMean]
    simp [extract_candidates, buildGroups, groupStep, contrib, getSuccess, getVerified,
      getConfidence, getServiceName, pyKey, candName, rawName, insertContribution,
      mkCandidate, List.mergeSort, candA, resA, hs])

end Ufro
